import Mathlib

/-!
Verification of the backup-restore tool `scripts/restore_backup_from_s3.py`.

The script lists objects in an S3 bucket, selects the latest backup zip by
comparing the maximum under name order with the maximum under last-modified
order (`find_latest_zip`), downloads it to a staging file `tmp.zip` inside the
download directory, and extracts every entry into that same directory
(`restore_from_zip`).

The embedding below translates the script's functions into Lean:
Python's `sorted` (a stable sort by a key) becomes `List.mergeSort` with the
key's `≤` as comparator; `sorted_xs[-1]` on an empty list raises `IndexError`,
which becomes a dedicated error constructor; `assert v1 == v2` raising
`AssertionError` with both candidates in the message becomes an error
constructor carrying both; the filesystem of the download directory becomes an
association list from relative path to file contents; the fallible steps
(`zipfile.ZipFile` raising `BadZipFile`, `zf.extract` raising mid-loop) become
explicit outcome parameters of the model.
-/

/-- One S3 object as seen by the script: `boto` exposes `key.name` and
`key.last_modified` (an ISO-8601 timestamp string, compared lexicographically
by Python's `sorted`). Keys are unique within a bucket, so an object is
determined by its fields and structural equality coincides with Python's
object identity for listed keys. -/
structure BackupObject where
  name : String
  last_modified : String
deriving DecidableEq, Repr

/-- The ways `find_latest_zip` can raise instead of returning:
`sorted_by_name[-1]` raises `IndexError` on an empty list, and
`assert v1 == v2, "inconsistency in zip files, %s != %s" % (str(v1), str(v2))`
raises `AssertionError` carrying both candidates. -/
inductive SelError where
  | indexError
  | assertInconsistent (v1 v2 : BackupObject)
deriving DecidableEq, Repr

/-- `sorted(zip_files, key=lambda el: el.name)`: Python's stable sort by the
name key; `List.mergeSort` with the key's `≤` is stable, hence computes the
same list. -/
def sorted_by_name (zip_files : List BackupObject) : List BackupObject :=
  zip_files.mergeSort (fun a b => decide (a.name ≤ b.name))

/-- `sorted(zip_files, key=lambda el: el.last_modified)`. -/
def sorted_by_mod_time (zip_files : List BackupObject) : List BackupObject :=
  zip_files.mergeSort (fun a b => decide (a.last_modified ≤ b.last_modified))

/-- `find_latest_zip(zip_files)` from `scripts/restore_backup_from_s3.py`:
sort by name, sort by last-modified, take the last element of each
(`IndexError` when empty), assert they agree, return the agreed object. -/
def find_latest_zip (zip_files : List BackupObject) :
    Except SelError BackupObject :=
  match (sorted_by_name zip_files).getLast?,
        (sorted_by_mod_time zip_files).getLast? with
  | some v1, some v2 =>
      if v1 = v2 then .ok v1 else .error (.assertInconsistent v1 v2)
  | _, _ => .error .indexError

theorem sorted_by_name_perm (l : List BackupObject) :
    (sorted_by_name l).Perm l :=
  List.mergeSort_perm l _

theorem sorted_by_mod_time_perm (l : List BackupObject) :
    (sorted_by_mod_time l).Perm l :=
  List.mergeSort_perm l _

theorem sorted_by_name_pairwise (l : List BackupObject) :
    (sorted_by_name l).Pairwise (fun a b => a.name ≤ b.name) := by
  have h := @List.sorted_mergeSort BackupObject
    (fun a b : BackupObject => decide (a.name ≤ b.name))
    (fun a b c hab hbc => by
      simp only [decide_eq_true_eq] at *; exact le_trans hab hbc)
    (fun a b => by
      simp only [Bool.or_eq_true, decide_eq_true_eq]; exact le_total a.name b.name)
    l
  exact h.imp (fun hab => by simpa using hab)

theorem sorted_by_mod_time_pairwise (l : List BackupObject) :
    (sorted_by_mod_time l).Pairwise (fun a b => a.last_modified ≤ b.last_modified) := by
  have h := @List.sorted_mergeSort BackupObject
    (fun a b : BackupObject => decide (a.last_modified ≤ b.last_modified))
    (fun a b c hab hbc => by
      simp only [decide_eq_true_eq] at *; exact le_trans hab hbc)
    (fun a b => by
      simp only [Bool.or_eq_true, decide_eq_true_eq]
      exact le_total a.last_modified b.last_modified)
    l
  exact h.imp (fun hab => by simpa using hab)

/-- In a `Pairwise R` list, every element is the last one or relates to it. -/
theorem pairwise_rel_getLast {α : Type} {R : α → α → Prop} :
    ∀ (s : List α) (h : s ≠ []), s.Pairwise R →
      ∀ a ∈ s, a = s.getLast h ∨ R a (s.getLast h) := by
  intro s
  induction s with
  | nil => intro h; exact absurd rfl h
  | cons x t ih =>
      intro h hp a ha
      cases t with
      | nil =>
          simp only [List.mem_singleton] at ha
          subst ha; left; rfl
      | cons y u =>
          have hlast : (x :: y :: u).getLast h = (y :: u).getLast (by simp) := by
            simp [List.getLast]
          rw [hlast]
          rcases List.mem_cons.mp ha with rfl | hmem
          · right
            exact (List.pairwise_cons.mp hp).1 _ (List.getLast_mem _)
          · exact ih (by simp) (List.pairwise_cons.mp hp).2 a hmem

/-- If `x` is the strict maximum of `l` under `key`, then the last element of
any sort of `l` that is pairwise nondecreasing in `key` is `x`. -/
theorem getLast_eq_of_strict_max {l s : List BackupObject} {x : BackupObject}
    (key : BackupObject → String) (hperm : s.Perm l)
    (hsort : s.Pairwise (fun a b => key a ≤ key b))
    (hx : x ∈ l) (hmax : ∀ y ∈ l, y ≠ x → key y < key x) :
    s.getLast? = some x := by
  have hne : s ≠ [] := by
    intro hnil
    rw [hnil] at hperm
    rw [List.nil_perm.mp hperm] at hx
    exact absurd hx (List.not_mem_nil x)
  rw [List.getLast?_eq_getLast s hne]
  congr 1
  by_contra hneq
  have hxs : x ∈ s := hperm.mem_iff.mpr hx
  have hlast_mem : s.getLast hne ∈ l := hperm.mem_iff.mp (List.getLast_mem hne)
  rcases pairwise_rel_getLast s hne hsort x hxs with heq | hle
  · exact hneq heq.symm
  · have hlt : key (s.getLast hne) < key x := by
      apply hmax _ hlast_mem
      intro heq
      exact hneq heq
    exact absurd hle (not_le.mpr hlt)

/-- Successful selection returns an element of the input list. -/
theorem find_latest_zip_mem {l : List BackupObject} {x : BackupObject}
    (h : find_latest_zip l = .ok x) : x ∈ l := by
  unfold find_latest_zip at h
  rcases hv1 : (sorted_by_name l).getLast? with _ | v1
  · rw [hv1] at h; cases hv2 : (sorted_by_mod_time l).getLast? <;>
      rw [hv2] at h <;> exact absurd h (by simp)
  rcases hv2 : (sorted_by_mod_time l).getLast? with _ | v2
  · rw [hv1, hv2] at h; exact absurd h (by simp)
  rw [hv1, hv2] at h
  dsimp only at h
  by_cases heq : v1 = v2
  · rw [if_pos heq] at h
    injection h with h
    subst h
    have hmem : v1 ∈ sorted_by_name l := List.mem_of_mem_getLast? hv1
    exact (sorted_by_name_perm l).mem_iff.mp hmem
  · rw [if_neg heq] at h
    exact absurd h (by simp)

/-- Two permuted lists that are both pairwise ordered by an asymmetric
relation are equal. -/
theorem perm_pairwise_asymm_eq {α : Type} {S : α → α → Prop}
    (hasym : ∀ a b, S a b → S b a → False) :
    ∀ l1 l2 : List α, l1.Perm l2 → l1.Pairwise S → l2.Pairwise S → l1 = l2 := by
  intro l1
  induction l1 with
  | nil =>
      intro l2 hp _ _
      exact hp.nil_eq
  | cons a t1 ih =>
      intro l2 hp hp1 hp2
      cases l2 with
      | nil => exact absurd (List.Perm.eq_nil hp) (by simp)
      | cons b t2 =>
          have hab : a = b := by
            by_contra hne
            have hamem : a ∈ b :: t2 := hp.mem_iff.mp (List.mem_cons_self a t1)
            have hat2 : a ∈ t2 := by
              rcases List.mem_cons.mp hamem with h | h
              · exact absurd h hne
              · exact h
            have hSba : S b a := (List.pairwise_cons.mp hp2).1 a hat2
            have hbmem : b ∈ a :: t1 := hp.mem_iff.mpr (List.mem_cons_self b t2)
            have hbt1 : b ∈ t1 := by
              rcases List.mem_cons.mp hbmem with h | h
              · exact absurd h.symm hne
              · exact h
            have hSab : S a b := (List.pairwise_cons.mp hp1).1 b hbt1
            exact hasym a b hSab hSba
          subst hab
          have ht : t1.Perm t2 := hp.cons_inv
          rw [ih t2 ht (List.pairwise_cons.mp hp1).2 (List.pairwise_cons.mp hp2).2]

/-- With pairwise-distinct names, sorting by name is invariant under
permutation of the input. -/
theorem sorted_by_name_eq_of_perm {l l' : List BackupObject}
    (hd : l.Pairwise (fun a b => a.name ≠ b.name)) (hperm : l.Perm l') :
    sorted_by_name l = sorted_by_name l' := by
  have hsymm : ∀ {x y : BackupObject}, x.name ≠ y.name → y.name ≠ x.name :=
    fun h => h.symm
  have hd1 : (sorted_by_name l).Pairwise (fun a b => a.name ≠ b.name) :=
    (List.Perm.pairwise_iff hsymm (sorted_by_name_perm l)).mpr hd
  have hd2 : (sorted_by_name l').Pairwise (fun a b => a.name ≠ b.name) :=
    (List.Perm.pairwise_iff hsymm (sorted_by_name_perm l')).mpr
      ((List.Perm.pairwise_iff hsymm hperm).mp hd)
  have hs1 : (sorted_by_name l).Pairwise (fun a b => a.name < b.name) :=
    ((sorted_by_name_pairwise l).and hd1).imp
      (fun hab => lt_of_le_of_ne hab.1 hab.2)
  have hs2 : (sorted_by_name l').Pairwise (fun a b => a.name < b.name) :=
    ((sorted_by_name_pairwise l').and hd2).imp
      (fun hab => lt_of_le_of_ne hab.1 hab.2)
  exact perm_pairwise_asymm_eq (fun a b h1 h2 => absurd h1 (lt_asymm h2)) _ _
    (((sorted_by_name_perm l).trans hperm).trans (sorted_by_name_perm l').symm)
    hs1 hs2

/-- With pairwise-distinct timestamps, sorting by last-modified is invariant
under permutation of the input. -/
theorem sorted_by_mod_time_eq_of_perm {l l' : List BackupObject}
    (hd : l.Pairwise (fun a b => a.last_modified ≠ b.last_modified))
    (hperm : l.Perm l') :
    sorted_by_mod_time l = sorted_by_mod_time l' := by
  have hsymm : ∀ {x y : BackupObject},
      x.last_modified ≠ y.last_modified → y.last_modified ≠ x.last_modified :=
    fun h => h.symm
  have hd1 : (sorted_by_mod_time l).Pairwise
      (fun a b => a.last_modified ≠ b.last_modified) :=
    (List.Perm.pairwise_iff hsymm (sorted_by_mod_time_perm l)).mpr hd
  have hd2 : (sorted_by_mod_time l').Pairwise
      (fun a b => a.last_modified ≠ b.last_modified) :=
    (List.Perm.pairwise_iff hsymm (sorted_by_mod_time_perm l')).mpr
      ((List.Perm.pairwise_iff hsymm hperm).mp hd)
  have hs1 : (sorted_by_mod_time l).Pairwise
      (fun a b => a.last_modified < b.last_modified) :=
    ((sorted_by_mod_time_pairwise l).and hd1).imp
      (fun hab => lt_of_le_of_ne hab.1 hab.2)
  have hs2 : (sorted_by_mod_time l').Pairwise
      (fun a b => a.last_modified < b.last_modified) :=
    ((sorted_by_mod_time_pairwise l').and hd2).imp
      (fun hab => lt_of_le_of_ne hab.1 hab.2)
  exact perm_pairwise_asymm_eq (fun a b h1 h2 => absurd h1 (lt_asymm h2)) _ _
    (((sorted_by_mod_time_perm l).trans hperm).trans
      (sorted_by_mod_time_perm l').symm)
    hs1 hs2

theorem find_latest_zip_of_strict_max (l : List BackupObject)
    (x : BackupObject) (hx : x ∈ l)
    (hname : ∀ y ∈ l, y ≠ x → y.name < x.name)
    (htime : ∀ y ∈ l, y ≠ x → y.last_modified < x.last_modified) :
    find_latest_zip l = .ok x := by
  have h1 : (sorted_by_name l).getLast? = some x :=
    getLast_eq_of_strict_max (fun o => o.name) (sorted_by_name_perm l)
      (sorted_by_name_pairwise l) hx hname
  have h2 : (sorted_by_mod_time l).getLast? = some x :=
    getLast_eq_of_strict_max (fun o => o.last_modified) (sorted_by_mod_time_perm l)
      (sorted_by_mod_time_pairwise l) hx htime
  unfold find_latest_zip
  rw [h1, h2]
  dsimp only
  rw [if_pos rfl]

/-- C1: for every non-empty candidate list in which exactly one object is
strictly maximal under name order and that same object is strictly maximal
under last-modified order, `find_latest_zip` returns that object. -/
theorem C1_find_latest_zip_strict_max (l : List BackupObject) (x : BackupObject)
    (hx : x ∈ l)
    (hname : ∀ y ∈ l, y ≠ x → y.name < x.name)
    (htime : ∀ y ∈ l, y ≠ x → y.last_modified < x.last_modified) :
    find_latest_zip l = .ok x :=
  find_latest_zip_of_strict_max l x hx hname htime

/-- Witness for C1: the spec's scenario
`[{name:"2024-01-01.zip", t:100}, {name:"2024-02-01.zip", t:200}]`
selects `"2024-02-01.zip"`. -/
theorem C1_witness :
    find_latest_zip
        [⟨"2024-01-01.zip", "100"⟩, ⟨"2024-02-01.zip", "200"⟩] =
      .ok ⟨"2024-02-01.zip", "200"⟩ :=
  C1_find_latest_zip_strict_max _ _ (by decide)
    (by
      intro y hy hne
      fin_cases hy
      · rw [String.lt_iff_toList_lt]; decide
      · exact absurd rfl hne)
    (by
      intro y hy hne
      fin_cases hy
      · rw [String.lt_iff_toList_lt]; decide
      · exact absurd rfl hne)

/-- C2: for every candidate list in which the (unique, strict) maximum under
name order and the (unique, strict) maximum under last-modified order are
different objects, `find_latest_zip` fails with the assertion error carrying
both disagreeing candidates, and returns no object. -/
theorem C2_find_latest_zip_inconsistent (l : List BackupObject)
    (x y : BackupObject) (hx : x ∈ l) (hy : y ∈ l) (hxy : x ≠ y)
    (hname : ∀ z ∈ l, z ≠ x → z.name < x.name)
    (htime : ∀ z ∈ l, z ≠ y → z.last_modified < y.last_modified) :
    find_latest_zip l = .error (.assertInconsistent x y) := by
  have h1 : (sorted_by_name l).getLast? = some x :=
    getLast_eq_of_strict_max (fun o => o.name) (sorted_by_name_perm l)
      (sorted_by_name_pairwise l) hx hname
  have h2 : (sorted_by_mod_time l).getLast? = some y :=
    getLast_eq_of_strict_max (fun o => o.last_modified) (sorted_by_mod_time_perm l)
      (sorted_by_mod_time_pairwise l) hy htime
  unfold find_latest_zip
  rw [h1, h2]
  dsimp only
  rw [if_neg hxy]

/-- Witness for C2: the spec's scenario
`[{name:"2024-01-01.zip", t:300}, {name:"2024-02-01.zip", t:200}]`
fails with the inconsistency assertion carrying both candidates. -/
theorem C2_witness :
    find_latest_zip
        [⟨"2024-01-01.zip", "300"⟩, ⟨"2024-02-01.zip", "200"⟩] =
      .error (.assertInconsistent ⟨"2024-02-01.zip", "200"⟩
        ⟨"2024-01-01.zip", "300"⟩) :=
  C2_find_latest_zip_inconsistent _ _ _ (by decide) (by decide) (by decide)
    (by
      intro z hz hne
      fin_cases hz
      · rw [String.lt_iff_toList_lt]; decide
      · exact absurd rfl hne)
    (by
      intro z hz hne
      fin_cases hz
      · exact absurd rfl hne
      · rw [String.lt_iff_toList_lt]; decide)

/-- C3: on the empty candidate list the selector fails with the empty-input
error (Python's `IndexError` from `sorted_by_name[-1]`), returning no object,
and that error kind occurs for no other input — it is dedicated to the
empty-candidate case. -/
theorem C3_find_latest_zip_empty :
    find_latest_zip ([] : List BackupObject) = .error .indexError ∧
    ∀ l : List BackupObject, l ≠ [] →
      find_latest_zip l ≠ .error .indexError := by
  refine ⟨by simp [find_latest_zip, sorted_by_name, sorted_by_mod_time], ?_⟩
  intro l hl hbad
  have h1 : sorted_by_name l ≠ [] := by
    intro h
    exact hl ((List.nil_perm).mp (h ▸ sorted_by_name_perm l))
  have h2 : sorted_by_mod_time l ≠ [] := by
    intro h
    exact hl ((List.nil_perm).mp (h ▸ sorted_by_mod_time_perm l))
  unfold find_latest_zip at hbad
  rw [List.getLast?_eq_getLast _ h1, List.getLast?_eq_getLast _ h2] at hbad
  dsimp only at hbad
  split_ifs at hbad with h
  all_goals simp at hbad

/-- Witness for C3: the empty list yields the empty-input error, a singleton
list does not. -/
theorem C3_witness :
    find_latest_zip ([] : List BackupObject) = .error .indexError ∧
    find_latest_zip [⟨"a.zip", "2024"⟩] ≠ .error .indexError :=
  ⟨C3_find_latest_zip_empty.1, C3_find_latest_zip_empty.2 _ (by decide)⟩

/-- C10: for every non-empty candidate list with pairwise-distinct names and
pairwise-distinct timestamps, the selector's outcome is invariant under
permutation of the input, and a successfully returned object is an element of
the input list. -/
theorem C10_find_latest_zip_perm_invariant (l l' : List BackupObject)
    (_hne : l ≠ [])
    (hdn : l.Pairwise (fun a b => a.name ≠ b.name))
    (hdt : l.Pairwise (fun a b => a.last_modified ≠ b.last_modified))
    (hperm : l.Perm l') :
    find_latest_zip l = find_latest_zip l' ∧
    ∀ x : BackupObject, find_latest_zip l = .ok x → x ∈ l := by
  constructor
  · unfold find_latest_zip
    rw [sorted_by_name_eq_of_perm hdn hperm,
      sorted_by_mod_time_eq_of_perm hdt hperm]
  · intro x hx
    exact find_latest_zip_mem hx

/-- Witness for C10: swapping a two-element candidate list with distinct
names and distinct timestamps leaves the outcome unchanged, and the returned
object is in the list. -/
theorem C10_witness :
    find_latest_zip [⟨"a.zip", "100"⟩, ⟨"b.zip", "200"⟩] =
      find_latest_zip [⟨"b.zip", "200"⟩, ⟨"a.zip", "100"⟩] ∧
    (⟨"b.zip", "200"⟩ : BackupObject) ∈
      [(⟨"a.zip", "100"⟩ : BackupObject), ⟨"b.zip", "200"⟩] :=
  have T := C10_find_latest_zip_perm_invariant
    [⟨"a.zip", "100"⟩, ⟨"b.zip", "200"⟩]
    [⟨"b.zip", "200"⟩, ⟨"a.zip", "100"⟩]
    (by decide) (by decide) (by decide)
    (List.Perm.swap (⟨"b.zip", "200"⟩ : BackupObject) ⟨"a.zip", "100"⟩ [])
  ⟨T.1, T.2 ⟨"b.zip", "200"⟩ (find_latest_zip_of_strict_max _ _ (by decide)
    (by
      intro y hy hne
      fin_cases hy
      · rw [String.lt_iff_toList_lt]; decide
      · exact absurd rfl hne)
    (by
      intro y hy hne
      fin_cases hy
      · rw [String.lt_iff_toList_lt]; decide
      · exact absurd rfl hne))⟩

/-!
The restore executor `restore_from_zip(s3_key)`.

In the script, `tmp_path = os.path.join(local_download_dir(), "tmp.zip")` and
`dst_dir = local_download_dir()` — the staging file lives *inside* the
destination directory, at relative path `"tmp.zip"`. The destination
directory's files are modelled as an association list from relative path to
file contents, read through `fsGet`. The fallible operations of the run are
made explicit inputs of the model:
  * the staged bytes (`s3_key.get_contents_to_filename`) are `S3Obj.raw`;
  * `zipfile.ZipFile(tmp_path, "r")` either raises `BadZipFile`
    (`S3Obj.parsed = none`) or yields the entry list `zf.namelist()` in
    archive order, each entry with its bytes (`S3Obj.parsed = some entries`);
  * `zf.extract(name, dst_dir)` either writes the entry's bytes or raises;
    `failIdx = some k` means extraction of the entry at 0-based index `k`
    raises (before the entry's bytes reach the destination), `failIdx = none`
    means every extraction succeeds.
An uncaught exception aborts the run at that point — the script has no
`try`/`finally`, so the statements after the raise simply do not execute.
-/

/-- Destination-directory contents: relative path ↦ file bytes. -/
def FS : Type := List (String × String)

/-- Read a file: the script's observable state of a path. -/
def fsGet (fs : FS) (p : String) : Option String :=
  List.lookup p fs

/-- `delete_file(path)`: `if os.path.exists(path): os.remove(path)`. -/
def fsDelete (fs : FS) (p : String) : FS :=
  List.filter (fun e => !(e.1 == p)) fs

/-- Writing a file at `path` (download to it, or extract an entry to it). -/
def fsWrite (fs : FS) (p : String) (c : String) : FS :=
  (p, c) :: fsDelete fs p

/-- One archive entry: a name from `zf.namelist()` and its bytes. -/
structure ZipEntry where
  name : String
  content : String
deriving DecidableEq, Repr

/-- The selected S3 object as the run sees it: the downloaded bytes, and the
result of opening them as a zip (`none` = `BadZipFile`). -/
structure S3Obj where
  raw : String
  parsed : Option (List ZipEntry)
deriving DecidableEq, Repr

/-- How a run of `restore_from_zip` terminates: normal return, uncaught
`BadZipFile` from `zipfile.ZipFile`, or an uncaught exception while
extracting the entry at index `k`. -/
inductive RunResult where
  | success
  | corruptArchive
  | extractionFailed (k : Nat)
deriving DecidableEq, Repr

/-- The staging path relative to the destination directory:
`os.path.join(local_download_dir(), "tmp.zip")` with
`dst_dir = local_download_dir()`. -/
def tmp_path : String := "tmp.zip"

/-- The `for name in zf.namelist():` loop of `restore_from_zip`, followed by
the final `delete_file(tmp_path)`. Each iteration runs
`delete_file(dst_path)` and then `zf.extract(name, dst_dir)`; if the extract
raises (`failIdx = some k`), the loop and the trailing cleanup never run. -/
def extractLoop (failIdx : Option Nat) :
    List ZipEntry → Nat → FS → FS × RunResult
  | [], _, fs => (fsDelete fs tmp_path, .success)
  | e :: rest, k, fs =>
      let fs1 := fsDelete fs e.name
      if failIdx = some k then (fs1, .extractionFailed k)
      else extractLoop failIdx rest (k + 1) (fsWrite fs1 e.name e.content)

/-- `restore_from_zip(s3_key)`: delete a stale staging file, download the
object's bytes to the staging path, open the archive (`BadZipFile` aborts the
run here, leaving the staged bytes behind), then extract entry by entry and
finally delete the staging file. -/
def restore_from_zip (obj : S3Obj) (failIdx : Option Nat) (fs0 : FS) :
    FS × RunResult :=
  let fs1 := fsDelete fs0 tmp_path
  let fs2 := fsWrite fs1 tmp_path obj.raw
  match obj.parsed with
  | none => (fs2, .corruptArchive)
  | some entries => extractLoop failIdx entries 0 fs2

theorem lookup_filter_ne (p q : String) :
    ∀ t : List (String × String),
      List.lookup q (t.filter fun e => !(e.1 == p)) =
        if q = p then none else List.lookup q t := by
  intro t
  induction t with
  | nil =>
      simp only [List.filter_nil, List.lookup_nil]
      split <;> rfl
  | cons e t ih =>
      obtain ⟨e1, e2⟩ := e
      by_cases hep : e1 = p
      · rw [List.filter_cons_of_neg (by simp [hep]), ih]
        by_cases hqp : q = p
        · simp [hqp]
        · have hqe : (q == e1) = false := by
            apply beq_eq_false_iff_ne.mpr
            intro h
            exact hqp (hep ▸ h)
          simp [hqp, List.lookup, hqe]
      · rw [List.filter_cons_of_pos (by simp [hep])]
        by_cases hqe : q = e1
        · have hqp : ¬q = p := fun h => hep ((hqe ▸ h : (e1 : String) = p))
          have hqeb : (q == e1) = true := beq_iff_eq.mpr hqe
          simp [List.lookup, hqeb, if_neg hqp]
        · have hqeb : (q == e1) = false := beq_eq_false_iff_ne.mpr hqe
          simp [List.lookup, hqeb, ih]

theorem fsGet_fsDelete (fs : FS) (p q : String) :
    fsGet (fsDelete fs p) q = if q = p then none else fsGet fs q :=
  lookup_filter_ne p q fs

theorem fsGet_fsWrite (fs : FS) (p c q : String) :
    fsGet (fsWrite fs p c) q = if q = p then some c else fsGet fs q := by
  by_cases hqp : q = p
  · have : (q == p) = true := beq_iff_eq.mpr hqp
    simp [fsWrite, fsGet, List.lookup, this, hqp]
  · have : (q == p) = false := beq_eq_false_iff_ne.mpr hqp
    have h := fsGet_fsDelete fs p q
    rw [if_neg hqp] at h
    rw [if_neg hqp]
    simp only [fsWrite, fsGet, List.lookup, this]
    exact h

/-- The effect of `extractLoop failIdx entries k` on a single path `p`:
`some v` when the loop writes/deletes `p` (final value `v`), `none` when the
loop leaves `p` alone. Mirrors the loop's recursion: later iterations win,
the failing iteration only performs its `delete_file`, and a completed loop
deletes the staging file. -/
def touchVal (failIdx : Option Nat) :
    List ZipEntry → Nat → String → Option (Option String)
  | [], _, p => if p = tmp_path then some none else none
  | e :: rest, k, p =>
      if failIdx = some k then (if p = e.name then some none else none)
      else
        match touchVal failIdx rest (k + 1) p with
        | some v => some v
        | none => if p = e.name then some (some e.content) else none

theorem extractLoop_get (failIdx : Option Nat) :
    ∀ (entries : List ZipEntry) (k : Nat) (fs : FS) (p : String),
      fsGet (extractLoop failIdx entries k fs).1 p =
        match touchVal failIdx entries k p with
        | some v => v
        | none => fsGet fs p := by
  intro entries
  induction entries with
  | nil =>
      intro k fs p
      simp only [extractLoop, touchVal]
      rw [fsGet_fsDelete]
      by_cases hp : p = tmp_path <;> simp [hp]
  | cons e rest ih =>
      intro k fs p
      simp only [extractLoop, touchVal]
      by_cases hf : failIdx = some k
      · rw [if_pos hf, if_pos hf]
        rw [fsGet_fsDelete]
        by_cases hpe : p = e.name <;> simp [hpe]
      · rw [if_neg hf, if_neg hf, ih]
        cases htv : touchVal failIdx rest (k + 1) p with
        | some v => rfl
        | none =>
            rw [fsGet_fsWrite]
            by_cases hpe : p = e.name <;> simp [hpe, fsGet_fsDelete]

/-- The loop's termination mode does not depend on the filesystem. -/
theorem extractLoop_snd_indep (failIdx : Option Nat) :
    ∀ (entries : List ZipEntry) (k : Nat) (fs fs' : FS),
      (extractLoop failIdx entries k fs).2 =
        (extractLoop failIdx entries k fs').2 := by
  intro entries
  induction entries with
  | nil => intro k fs fs'; rfl
  | cons e rest ih =>
      intro k fs fs'
      simp only [extractLoop]
      by_cases hf : failIdx = some k
      · rw [if_pos hf, if_pos hf]
      · rw [if_neg hf, if_neg hf]
        exact ih (k + 1) _ _

/-- A loop that terminates normally has executed the trailing
`delete_file(tmp_path)`. -/
theorem extractLoop_success_tmp (failIdx : Option Nat) :
    ∀ (entries : List ZipEntry) (k : Nat) (fs : FS),
      (extractLoop failIdx entries k fs).2 = .success →
      fsGet (extractLoop failIdx entries k fs).1 tmp_path = none := by
  intro entries
  induction entries with
  | nil =>
      intro k fs _
      simp only [extractLoop]
      rw [fsGet_fsDelete, if_pos rfl]
  | cons e rest ih =>
      intro k fs hs
      simp only [extractLoop] at hs ⊢
      by_cases hf : failIdx = some k
      · rw [if_pos hf] at hs
        exact absurd hs (by simp)
      · rw [if_neg hf] at hs ⊢
        exact ih (k + 1) _ hs

/-- The effect of a whole `restore_from_zip` run on a single path: the loop's
effect when the archive opens, with the staged download underneath. -/
def restoreVal (obj : S3Obj) (failIdx : Option Nat) (p : String) :
    Option (Option String) :=
  match obj.parsed with
  | none => if p = tmp_path then some (some obj.raw) else none
  | some entries =>
      match touchVal failIdx entries 0 p with
      | some v => some v
      | none => if p = tmp_path then some (some obj.raw) else none

theorem restore_get (obj : S3Obj) (failIdx : Option Nat) (fs0 : FS)
    (p : String) :
    fsGet (restore_from_zip obj failIdx fs0).1 p =
      match restoreVal obj failIdx p with
      | some v => v
      | none => fsGet fs0 p := by
  cases hp : obj.parsed with
  | none =>
      simp only [restore_from_zip, restoreVal, hp]
      rw [fsGet_fsWrite]
      by_cases hpt : p = tmp_path <;> simp [hpt, fsGet_fsDelete]
  | some entries =>
      simp only [restore_from_zip, restoreVal, hp]
      rw [extractLoop_get]
      cases htv : touchVal failIdx entries 0 p with
      | some v => rfl
      | none =>
          rw [fsGet_fsWrite]
          by_cases hpt : p = tmp_path <;> simp [hpt, fsGet_fsDelete]

/-- The run's termination mode does not depend on the prior filesystem. -/
theorem restore_snd_indep (obj : S3Obj) (failIdx : Option Nat) (fs fs' : FS) :
    (restore_from_zip obj failIdx fs).2 = (restore_from_zip obj failIdx fs').2 := by
  simp only [restore_from_zip]
  cases obj.parsed with
  | none => rfl
  | some entries => exact extractLoop_snd_indep failIdx entries 0 _ _

/-- C4 as stated is false: the script deletes the staging file only as the
last statement of `restore_from_zip`; an uncaught `BadZipFile` skips it.
Concretely, restoring a corrupt object into an empty destination leaves
`tmp.zip` (with the downloaded bytes) on disk after the run fails. -/
theorem C4_counterexample :
    (restore_from_zip ⟨"rawbytes", none⟩ none []).2 = .corruptArchive ∧
    fsGet (restore_from_zip ⟨"rawbytes", none⟩ none []).1 tmp_path =
      some "rawbytes" :=
  ⟨rfl, rfl⟩

/-- C4 amended: after a *successful* run of `restore_from_zip` no staging
file remains on disk; a failing run can leave it behind. -/
theorem C4_staging_cleanup_on_success (obj : S3Obj) (failIdx : Option Nat)
    (fs0 : FS) (h : (restore_from_zip obj failIdx fs0).2 = .success) :
    fsGet (restore_from_zip obj failIdx fs0).1 tmp_path = none := by
  cases hp : obj.parsed with
  | none =>
      simp only [restore_from_zip, hp] at h
      exact absurd h (by simp)
  | some entries =>
      simp only [restore_from_zip, hp] at h ⊢
      exact extractLoop_success_tmp failIdx entries 0 _ h

/-- Witness for the amended C4: a successful run over an empty archive ends
with no staging file. -/
theorem C4_witness :
    fsGet (restore_from_zip ⟨"zipbytes", some []⟩ none []).1 tmp_path = none :=
  C4_staging_cleanup_on_success ⟨"zipbytes", some []⟩ none [] rfl

/-- C5 as stated is false: on `BadZipFile` the run aborts before any cleanup,
so the staged file is *not* deleted — it sits in the destination directory
with the downloaded bytes. -/
theorem C5_counterexample :
    (restore_from_zip ⟨"badzip", none⟩ none []).2 = .corruptArchive ∧
    ¬ fsGet (restore_from_zip ⟨"badzip", none⟩ none []).1 tmp_path = none :=
  ⟨rfl, by simp [restore_from_zip, fsGet, fsWrite, fsDelete, List.lookup, tmp_path]⟩

/-- C5 amended: when opening the staged download fails, the run reports the
corrupt-archive failure and every destination path other than the staging
path is left exactly as before; the staging path holds the downloaded bytes
instead of being deleted. -/
theorem C5_corrupt_archive (obj : S3Obj) (failIdx : Option Nat) (fs0 : FS)
    (h : obj.parsed = none) :
    (restore_from_zip obj failIdx fs0).2 = .corruptArchive ∧
    fsGet (restore_from_zip obj failIdx fs0).1 tmp_path = some obj.raw ∧
    ∀ p : String, p ≠ tmp_path →
      fsGet (restore_from_zip obj failIdx fs0).1 p = fsGet fs0 p := by
  refine ⟨?_, ?_, ?_⟩
  · simp only [restore_from_zip, h]
  · simp only [restore_from_zip, h]
    rw [fsGet_fsWrite, if_pos rfl]
  · intro p hp
    simp only [restore_from_zip, h]
    rw [fsGet_fsWrite, if_neg hp, fsGet_fsDelete, if_neg hp]

/-- Witness for the amended C5: a corrupt object over a one-file destination
reports the failure, leaves the staged bytes at the staging path, and leaves
the other file untouched. -/
theorem C5_witness :
    (restore_from_zip ⟨"badbytes", none⟩ none [("doc", "d")]).2 =
      .corruptArchive ∧
    fsGet (restore_from_zip ⟨"badbytes", none⟩ none [("doc", "d")]).1
      tmp_path = some "badbytes" ∧
    fsGet (restore_from_zip ⟨"badbytes", none⟩ none [("doc", "d")]).1 "doc" =
      fsGet [("doc", "d")] "doc" :=
  have T := C5_corrupt_archive ⟨"badbytes", none⟩ none [("doc", "d")] rfl
  ⟨T.1, T.2.1, T.2.2 "doc" (by decide)⟩

/-- C8: a run of `restore_from_zip` is idempotent — re-running it on its own
output terminates the same way and leaves every path with the same contents
as the single run. -/
theorem C8_restore_idempotent (obj : S3Obj) (failIdx : Option Nat) (fs0 : FS) :
    (restore_from_zip obj failIdx
        (restore_from_zip obj failIdx fs0).1).2 =
      (restore_from_zip obj failIdx fs0).2 ∧
    ∀ p : String,
      fsGet (restore_from_zip obj failIdx
          (restore_from_zip obj failIdx fs0).1).1 p =
        fsGet (restore_from_zip obj failIdx fs0).1 p := by
  constructor
  · exact restore_snd_indep obj failIdx _ _
  · intro p
    rw [restore_get, restore_get]
    cases htv : restoreVal obj failIdx p <;> rfl

/-- The loop's effect on path `p` when the entries of `pre` are extracted and
then extraction of `e` raises: `e`'s destination path was deleted just before
the raise, each processed entry's path holds its bytes (later duplicates
win), everything else is untouched. -/
def failTouch : List ZipEntry → ZipEntry → String → Option (Option String)
  | [], e, p => if p = e.name then some none else none
  | d :: rest, e, p =>
      match failTouch rest e p with
      | some v => some v
      | none => if p = d.name then some (some d.content) else none

theorem touchVal_fail_at :
    ∀ (pre : List ZipEntry) (k : Nat) (e : ZipEntry) (post : List ZipEntry)
      (p : String),
      touchVal (some (k + pre.length)) (pre ++ e :: post) k p =
        failTouch pre e p := by
  intro pre
  induction pre with
  | nil =>
      intro k e post p
      simp [touchVal, failTouch]
  | cons d rest ih =>
      intro k e post p
      simp only [List.cons_append, touchVal, failTouch, List.append_eq]
      rw [if_neg (by simp only [List.length_cons, Option.some.injEq]; omega)]
      have harith : k + (d :: rest).length = (k + 1) + rest.length := by
        simp only [List.length_cons]; omega
      rw [harith, ih]

theorem extractLoop_snd_fail :
    ∀ (pre : List ZipEntry) (k : Nat) (e : ZipEntry) (post : List ZipEntry)
      (fs : FS),
      (extractLoop (some (k + pre.length)) (pre ++ e :: post) k fs).2 =
        .extractionFailed (k + pre.length) := by
  intro pre
  induction pre with
  | nil =>
      intro k e post fs
      simp [extractLoop]
  | cons d rest ih =>
      intro k e post fs
      simp only [List.cons_append, extractLoop, List.append_eq]
      rw [if_neg (by simp only [List.length_cons, Option.some.injEq]; omega)]
      have harith : k + (d :: rest).length = (k + 1) + rest.length := by
        simp only [List.length_cons]; omega
      rw [harith, ih]

theorem failTouch_self (e : ZipEntry) :
    ∀ pre : List ZipEntry, failTouch pre e e.name = some none := by
  intro pre
  induction pre with
  | nil => simp [failTouch]
  | cons d rest ih => simp [failTouch, ih]

theorem failTouch_not_mentioned (e : ZipEntry) (p : String)
    (hpe : p ≠ e.name) :
    ∀ pre : List ZipEntry, p ∉ pre.map ZipEntry.name →
      failTouch pre e p = none := by
  intro pre
  induction pre with
  | nil => intro _; simp [failTouch, hpe]
  | cons d rest ih =>
      intro h
      simp only [List.map_cons, List.mem_cons] at h
      push_neg at h
      simp [failTouch, ih h.2, h.1]

theorem failTouch_written (e d : ZipEntry) :
    ∀ p1 p2 : List ZipEntry, d.name ∉ p2.map ZipEntry.name → d.name ≠ e.name →
      failTouch (p1 ++ d :: p2) e d.name = some (some d.content) := by
  intro p1
  induction p1 with
  | nil =>
      intro p2 hn hne
      simp only [List.nil_append, failTouch]
      rw [failTouch_not_mentioned e d.name hne p2 hn]
      simp
  | cons a rest ih =>
      intro p2 hn hne
      simp only [List.cons_append, failTouch, List.append_eq]
      rw [ih p2 hn hne]

/-- A path mentioned by no entry and distinct from the staging path is never
touched by the loop, whatever the loop's outcome. -/
theorem touchVal_not_mentioned (failIdx : Option Nat) :
    ∀ (entries : List ZipEntry) (k : Nat) (p : String),
      p ∉ entries.map ZipEntry.name → p ≠ tmp_path →
      touchVal failIdx entries k p = none := by
  intro entries
  induction entries with
  | nil => intro k p _ hpt; simp [touchVal, hpt]
  | cons e rest ih =>
      intro k p hp hpt
      simp only [List.map_cons, List.mem_cons] at hp
      push_neg at hp
      simp only [touchVal]
      by_cases hf : failIdx = some k
      · rw [if_pos hf, if_neg hp.1]
      · rw [if_neg hf, ih (k + 1) p hp.2 hpt]
        rw [if_neg hp.1]

/-- Per-path description of a run whose extraction raises at the entry after
`pre`: the loop's effect if the path is touched, the staged download at the
staging path, the prior contents elsewhere. -/
theorem restore_get_fail (obj : S3Obj) (pre : List ZipEntry) (e : ZipEntry)
    (post : List ZipEntry) (fs0 : FS) (p : String)
    (hp : obj.parsed = some (pre ++ e :: post)) :
    fsGet (restore_from_zip obj (some pre.length) fs0).1 p =
      match failTouch pre e p with
      | some v => v
      | none => if p = tmp_path then some obj.raw else fsGet fs0 p := by
  simp only [restore_from_zip, hp]
  rw [extractLoop_get]
  have h0 : (some pre.length : Option Nat) = some (0 + pre.length) := by
    simp
  rw [h0, touchVal_fail_at]
  cases failTouch pre e p with
  | some v => rfl
  | none =>
      rw [fsGet_fsWrite]
      by_cases hpt : p = tmp_path <;> simp [hpt, fsGet_fsDelete]

/-- C6 as stated is false in one point: each iteration runs
`delete_file(dst_path)` *before* `zf.extract`, so when extraction of entry
`k` raises, entry `k`'s destination path has already been deleted rather
than left untouched. Concretely: the destination holds `a ↦ "old"`, the
archive's sole entry is `a`, its extraction fails, and afterwards `a` is
gone. -/
theorem C6_counterexample :
    (restore_from_zip ⟨"zip", some [⟨"a", "new"⟩]⟩ (some 0)
      [("a", "old")]).2 = .extractionFailed 0 ∧
    fsGet [("a", "old")] "a" = some "old" ∧
    fsGet (restore_from_zip ⟨"zip", some [⟨"a", "new"⟩]⟩ (some 0)
      [("a", "old")]).1 "a" = none :=
  ⟨rfl, rfl, rfl⟩

/-- C6 amended: entries are processed one at a time in archive order; when
extraction raises at the entry after `pre` (0-based index `pre.length`) the
run fails there, every earlier entry whose path is not rewritten later in
the processed part holds its archive bytes, the failing entry's destination
path has been deleted (its pre-delete ran before the raise), and every path
belonging to no processed entry and distinct from the staging path is
untouched. -/
theorem C6_partial_extraction (obj : S3Obj) (pre : List ZipEntry)
    (e : ZipEntry) (post : List ZipEntry) (fs0 : FS)
    (hp : obj.parsed = some (pre ++ e :: post)) :
    (restore_from_zip obj (some pre.length) fs0).2 =
      .extractionFailed pre.length ∧
    fsGet (restore_from_zip obj (some pre.length) fs0).1 e.name = none ∧
    (∀ (p1 : List ZipEntry) (d : ZipEntry) (p2 : List ZipEntry),
      pre = p1 ++ d :: p2 → d.name ∉ p2.map ZipEntry.name →
      d.name ≠ e.name →
      fsGet (restore_from_zip obj (some pre.length) fs0).1 d.name =
        some d.content) ∧
    (∀ p : String, p ∉ pre.map ZipEntry.name → p ≠ e.name → p ≠ tmp_path →
      fsGet (restore_from_zip obj (some pre.length) fs0).1 p =
        fsGet fs0 p) := by
  refine ⟨?_, ?_, ?_, ?_⟩
  · simp only [restore_from_zip, hp]
    have h0 : (some pre.length : Option Nat) = some (0 + pre.length) := by
      simp
    rw [h0, extractLoop_snd_fail]
    simp
  · rw [restore_get_fail obj pre e post fs0 e.name hp, failTouch_self]
  · intro p1 d p2 hpre hn hne
    rw [restore_get_fail obj pre e post fs0 d.name hp, hpre,
      failTouch_written e d p1 p2 hn hne]
  · intro p hp1 hpe hpt
    rw [restore_get_fail obj pre e post fs0 p hp,
      failTouch_not_mentioned e p hpe pre hp1, if_neg hpt]

/-- Witness for the amended C6: a two-entry archive whose second entry fails
to extract over a destination holding an unrelated file `c`. -/
theorem C6_witness :
    (restore_from_zip ⟨"zb", some [⟨"a", "na"⟩, ⟨"b", "nb"⟩]⟩ (some 1)
      [("c", "old")]).2 = .extractionFailed 1 ∧
    fsGet (restore_from_zip ⟨"zb", some [⟨"a", "na"⟩, ⟨"b", "nb"⟩]⟩ (some 1)
      [("c", "old")]).1 "b" = none ∧
    fsGet (restore_from_zip ⟨"zb", some [⟨"a", "na"⟩, ⟨"b", "nb"⟩]⟩ (some 1)
      [("c", "old")]).1 "a" = some "na" ∧
    fsGet (restore_from_zip ⟨"zb", some [⟨"a", "na"⟩, ⟨"b", "nb"⟩]⟩ (some 1)
      [("c", "old")]).1 "c" = fsGet [("c", "old")] "c" :=
  have T := C6_partial_extraction ⟨"zb", some [⟨"a", "na"⟩, ⟨"b", "nb"⟩]⟩
    [⟨"a", "na"⟩] ⟨"b", "nb"⟩ [] [("c", "old")] rfl
  ⟨T.1, T.2.1,
    T.2.2.1 [] ⟨"a", "na"⟩ [] rfl (by simp) (by decide),
    T.2.2.2 "c" (by simp) (by decide) (by decide)⟩

/-- C7 as stated is false for one special path: the staging file `tmp.zip`
lives inside the destination directory, and a successful run deletes it even
when the destination held a pre-existing `tmp.zip` and the archive has no
entry of that name. -/
theorem C7_counterexample :
    (restore_from_zip ⟨"zipb", some [⟨"a", "x"⟩]⟩ none
      [("tmp.zip", "keep")]).2 = .success ∧
    fsGet [("tmp.zip", "keep")] "tmp.zip" = some "keep" ∧
    ¬ ("tmp.zip" ∈ [(⟨"a", "x"⟩ : ZipEntry)].map ZipEntry.name) ∧
    fsGet (restore_from_zip ⟨"zipb", some [⟨"a", "x"⟩]⟩ none
      [("tmp.zip", "keep")]).1 "tmp.zip" = none :=
  ⟨rfl, rfl, by decide, rfl⟩

/-- C7 amended: a successful restore leaves every pre-existing destination
file whose relative path is neither an entry of the archive nor the staging
path `tmp.zip` present and byte-identical to its prior state. -/
theorem C7_frame (obj : S3Obj) (entries : List ZipEntry)
    (failIdx : Option Nat) (fs0 : FS) (p : String)
    (hp : obj.parsed = some entries)
    (_hsucc : (restore_from_zip obj failIdx fs0).2 = .success)
    (hnp : p ∉ entries.map ZipEntry.name) (hpt : p ≠ tmp_path) :
    fsGet (restore_from_zip obj failIdx fs0).1 p = fsGet fs0 p := by
  rw [restore_get]
  simp only [restoreVal, hp]
  rw [touchVal_not_mentioned failIdx entries 0 p hnp hpt, if_neg hpt]

/-- Witness for the amended C7: a pre-existing `readme.txt` not present in
the archive survives a successful restore unchanged. -/
theorem C7_witness :
    fsGet (restore_from_zip ⟨"zipb", some [⟨"a", "x"⟩]⟩ none
      [("readme.txt", "hello")]).1 "readme.txt" =
      fsGet [("readme.txt", "hello")] "readme.txt" :=
  C7_frame ⟨"zipb", some [⟨"a", "x"⟩]⟩ [⟨"a", "x"⟩] none
    [("readme.txt", "hello")] "readme.txt" rfl rfl (by decide) (by decide)

/-- Python's `name.endswith(".zip")`: the character sequence of `name` ends
with `'.'`, `'z'`, `'i'`, `'p'`. -/
def ends_with_zip (name : String) : Bool :=
  List.isSuffixOf ".zip".data name.data

/-- How `main()` can fail before a restore is attempted: the listing loop's
`assert False, "%s (%s) is unrecognized files in s3" % (str(f), name)` on the
first object whose name does not end in `".zip"` (carrying that object), or a
raise inside `find_latest_zip`. -/
inductive MainError where
  | unrecognized (f : BackupObject)
  | selector (e : SelError)
deriving DecidableEq, Repr

/-- The listing loop of `main()`: walk the yielded objects in order,
collecting those whose name ends in `".zip"`, aborting the whole run at the
first object that does not. -/
def scan_zip_files : List BackupObject → Except MainError (List BackupObject)
  | [] => .ok []
  | f :: rest =>
      if ends_with_zip f.name then
        match scan_zip_files rest with
        | .ok zs => .ok (f :: zs)
        | .error e => .error e
      else .error (.unrecognized f)

/-- `main()` up to the choice of the object to restore: scan the listing,
then run `find_latest_zip` on the collected zip files. `restore_from_zip` is
invoked only when this returns `.ok`. -/
def main_select (files : List BackupObject) : Except MainError BackupObject :=
  match scan_zip_files files with
  | .error e => .error e
  | .ok zips =>
      match find_latest_zip zips with
      | .ok v => .ok v
      | .error e => .error (.selector e)

/-- C9: if any listed object's name does not end in `".zip"`, the run fails
with the unrecognized-object assertion naming such an offending object — no
unrecognized object is silently skipped — and no object is ever selected for
restore. -/
theorem C9_unrecognized_object_fatal (files : List BackupObject)
    (f : BackupObject) (hf : f ∈ files)
    (hbad : ends_with_zip f.name = false) :
    (∃ g ∈ files, ends_with_zip g.name = false ∧
      main_select files = .error (.unrecognized g)) ∧
    ∀ v : BackupObject, main_select files ≠ .ok v := by
  have hscan : ∃ g ∈ files, ends_with_zip g.name = false ∧
      scan_zip_files files = .error (.unrecognized g) := by
    induction files with
    | nil => exact absurd hf (List.not_mem_nil f)
    | cons a rest ih =>
        by_cases ha : ends_with_zip a.name
        · have hfr : f ∈ rest := by
            rcases List.mem_cons.mp hf with rfl | hr
            · rw [ha] at hbad; exact absurd hbad (by simp)
            · exact hr
          obtain ⟨g, hg, hgbad, hgscan⟩ := ih hfr
          refine ⟨g, List.mem_cons_of_mem a hg, hgbad, ?_⟩
          simp only [scan_zip_files, if_pos ha, hgscan]
        · refine ⟨a, List.mem_cons_self a rest, by simpa using ha, ?_⟩
          simp only [scan_zip_files, if_neg ha]
  obtain ⟨g, hg, hgbad, hgscan⟩ := hscan
  constructor
  · exact ⟨g, hg, hgbad, by simp only [main_select, hgscan]⟩
  · intro v hv
    simp only [main_select, hgscan] at hv
    exact absurd hv (by simp)
/-- Witness for C9: a listing containing `"apptranslator/trans.dat"` aborts
with the unrecognized-object failure naming it, and selects nothing. -/
theorem C9_witness :
    main_select [⟨"apptranslator/app.zip", "100"⟩,
      ⟨"apptranslator/trans.dat", "200"⟩] =
      .error (.unrecognized ⟨"apptranslator/trans.dat", "200"⟩) ∧
    main_select [⟨"apptranslator/app.zip", "100"⟩,
      ⟨"apptranslator/trans.dat", "200"⟩] ≠
      .ok ⟨"apptranslator/app.zip", "100"⟩ :=
  have T := C9_unrecognized_object_fatal
    [⟨"apptranslator/app.zip", "100"⟩, ⟨"apptranslator/trans.dat", "200"⟩]
    ⟨"apptranslator/trans.dat", "200"⟩ (by decide) (by decide)
  ⟨rfl, T.2 ⟨"apptranslator/app.zip", "100"⟩⟩
